import Mathlib

/-!
Verification development for the froyo storage-pool manager
(`src/blockdev.rs`, `src/froyo.rs`, `src/raid.rs`, `src/thin.rs`,
`src/types.rs`).

The embedding is shallow: the pure decision logic of each Rust function is
translated into executable Lean definitions; kernel ioctl calls, file IO and
other environment effects are passed in as explicit oracle arguments.
`Sectors`, `SectorOffset` and `DataBlocks` are u64 newtypes in the source
(`types.rs`); they are modelled as `Nat` here, with the places where u64
wrap-around could matter noted next to the definitions involved.

The repository's `consts.rs` and `util.rs` are not part of the given source
tree, so the numeric constants they define are carried as explicit
parameters (see `Consts`) and the helpers they define are modelled from the
specification, each marked with a doc comment.
-/

/-- Behavioural error kinds of `std::io::ErrorKind` as used by the sources. -/
inductive ErrKind where
  | invalidInput
  | invalidData
  | permissionDenied
  | notFound
  deriving DecidableEq, Repr

/-- Modelled from the spec: `consts.rs` is not under `src/`, so the fixed
but implementation-chosen constants (§3 "Fixed constants") are carried as
explicit parameters.  `SECTOR_SIZE = 512` and `HEADER_SIZE = 4096` are fixed
by the spec and defined below as literals. -/
structure Consts where
  mdaZoneSectors : Nat
  mdaxZoneSectors : Nat
  defaultRegionSectors : Nat
  maxRegions : Nat
  stripeSectors : Nat
  minDataZoneSectors : Nat
  deriving Repr

/-- Modelled from the spec: sector size is fixed at 512 bytes (§3). -/
def SECTOR_SIZE : Nat := 512

/-- Modelled from the spec: header size is fixed at 4096 bytes (§3, §4.1). -/
def HEADER_SIZE : Nat := 4096

/-- Modelled from the spec: the RAID redundancy level R is fixed at 1
(single parity, raid5; §3 "Fixed constants"). -/
def FROYO_REDUNDANCY : Nat := 1

/-- `time::Timespec` (external crate): seconds and nanoseconds, compared
lexicographically by its derived `Ord`. -/
structure Timespec where
  sec : Int
  nsec : Int
  deriving DecidableEq, Repr

/-- The zero timestamp `Timespec::new(0,0)`; marks an unused MDA slot. -/
def Timespec.zero : Timespec := ⟨0, 0⟩

/-- Lexicographic comparison, as derived for `time::Timespec`. -/
def Timespec.cmp (a b : Timespec) : Ordering :=
  if a.sec < b.sec then .lt
  else if b.sec < a.sec then .gt
  else if a.nsec < b.nsec then .lt
  else if b.nsec < a.nsec then .gt
  else .eq

/-- An MDA slot descriptor (`blockdev.rs` `struct MDA`); the fixed zone
offset is represented by which of the two slots the descriptor occupies. -/
structure MDA where
  last_updated : Timespec
  length : Nat
  crc : Nat
  deriving DecidableEq, Repr

/-- Which of the two MDA slots. -/
inductive Slot where
  | A
  | B
  deriving DecidableEq, Repr

def Slot.opposite : Slot → Slot
  | .A => .B
  | .B => .A

/-- The metadata-relevant state of a `BlockDev`: its two MDA descriptors and
the on-disk contents of the two MDA payload zones (the head copy; the
trailer copy mirrors it and is never read by `read_mdax`). -/
structure BlockDevMd where
  mdaa : MDA
  mdab : MDA
  zoneA : List Nat
  zoneB : List Nat
  deriving DecidableEq, Repr

/-- The slot `read_mdax` selects (`blockdev.rs:250-254`): the one with the
larger `last_updated`, slot B when they are equal. -/
def newerSlot (bd : BlockDevMd) : Slot :=
  match Timespec.cmp bd.mdaa.last_updated bd.mdab.last_updated with
  | .lt => .B
  | .gt => .A
  | .eq => .B

/-- The slot `write_mdax` selects (`blockdev.rs:279-283`): the one with the
smaller `last_updated`, slot A when they are equal. -/
def olderSlot (bd : BlockDevMd) : Slot :=
  match Timespec.cmp bd.mdaa.last_updated bd.mdab.last_updated with
  | .lt => .A
  | .gt => .B
  | .eq => .A

/-- `BlockDev::read_mdax` (`blockdev.rs:249-275`): pick the newer slot, fail
if it is unused, read `length` bytes at its zone offset, check the CRC.
`crc32` abstracts `crc32::checksum_ieee` (external crate). -/
def read_mdax (crc32 : List Nat → Nat) (bd : BlockDevMd) :
    Except ErrKind (List Nat) :=
  let s := newerSlot bd
  let younger_mda := match s with | .A => bd.mdaa | .B => bd.mdab
  if younger_mda.last_updated = Timespec.zero then
    .error .invalidInput
  else
    let buf := (match s with | .A => bd.zoneA | .B => bd.zoneB).take
      younger_mda.length
    if younger_mda.crc ≠ crc32 buf then
      .error .invalidInput
    else
      .ok buf

/-- `BlockDev::write_mdax` (`blockdev.rs:278-306`): pick the older slot,
reject an oversized payload, set the slot's CRC/length/timestamp and
overwrite the head of its payload zone.  The trailer mirror write touches no
state that `read_mdax` consults and is omitted. -/
def write_mdax (crc32 : List Nat → Nat) (K : Consts) (bd : BlockDevMd)
    (time : Timespec) (metadata : List Nat) : Except ErrKind BlockDevMd :=
  let s := olderSlot bd
  if metadata.length > K.mdaxZoneSectors * SECTOR_SIZE then
    .error .invalidInput
  else
    let m : MDA :=
      { last_updated := time, length := metadata.length, crc := crc32 metadata }
    match s with
    | .A => .ok { bd with mdaa := m,
                          zoneA := metadata ++ bd.zoneA.drop metadata.length }
    | .B => .ok { bd with mdab := m,
                          zoneB := metadata ++ bd.zoneB.drop metadata.length }

/-! ## Space maps (`blockdev.rs:204-246`, `raid.rs:154-202`)

Used and free areas are `(start, length)` pairs of sectors. -/

/-- The order `Vec::sort` uses on `(SectorOffset, Sectors)` tuples:
lexicographic on the two u64 components. -/
def rle (a b : Nat × Nat) : Prop :=
  a.1 < b.1 ∨ (a.1 = b.1 ∧ a.2 ≤ b.2)

instance : DecidableRel rle := fun a b => by
  unfold rle; infer_instance

instance : IsTotal (Nat × Nat) rle where
  total a b := by unfold rle; omega

instance : IsTrans (Nat × Nat) rle where
  trans a b c := by unfold rle; omega

/-- The gap sweep shared by `BlockDev::free_areas` (`blockdev.rs:232-238`)
and `RaidDev::free_areas` (`raid.rs:173-179`), written as the recursion the
source's `fold`-with-push performs: `p` is `prev_end`; a gap is emitted
whenever `prev_end < start`, and `prev_end` becomes `start + len`. -/
def sweep (p : Nat) : List (Nat × Nat) → List (Nat × Nat)
  | [] => []
  | (start, len) :: rest =>
    if p < start then (p, start - p) :: sweep (start + len) rest
    else sweep (start + len) rest

/-- The source's fold form of the gap sweep: fold over the used list
carrying `(prev_end, free-so-far)`. -/
def freeFold (used : List (Nat × Nat)) : List (Nat × Nat) :=
  (used.foldl
    (fun st u =>
      (u.1 + u.2, if st.1 < u.1 then st.2 ++ [(st.1, u.1 - st.1)] else st.2))
    (0, ([] : List (Nat × Nat)))).2

/-- A linear child of a `BlockDev` (`blockdev.rs` `struct LinearDev`),
reduced to its two segment lists. -/
structure LinearDevModel where
  meta_segments : List (Nat × Nat)
  data_segments : List (Nat × Nat)
  deriving DecidableEq, Repr

/-- The space-map state of a `BlockDev` (`blockdev.rs` `struct BlockDev`):
its sector count and linear children. -/
structure BlockDevSpace where
  sectors : Nat
  linear_devs : List LinearDevModel
  deriving DecidableEq, Repr

/-- `BlockDev::used_areas` (`blockdev.rs:204-223`): the two MDA zones plus
every child's meta and data segments, sorted. -/
def BlockDevSpace.used_areas (K : Consts) (bd : BlockDevSpace) :
    List (Nat × Nat) :=
  List.insertionSort rle
    ((0, K.mdaZoneSectors) ::
     (bd.sectors - K.mdaZoneSectors, K.mdaZoneSectors) ::
     bd.linear_devs.flatMap (fun d => d.meta_segments ++ d.data_segments))

/-- `BlockDev::free_areas` (`blockdev.rs:225-241`): append the end sentinel
`(sectors, 0)` to the sorted used list and sweep the gaps. -/
def BlockDevSpace.free_areas (K : Consts) (bd : BlockDevSpace) :
    List (Nat × Nat) :=
  freeFold (bd.used_areas K ++ [(bd.sectors, 0)])

/-- `Iterator::max_by_key` on `|&(_, len)| len` (`blockdev.rs:243-246`):
Rust returns the LAST of several equally maximal elements, so the fold
replaces the current maximum whenever the new key is ≥. -/
def maxByLen (l : List (Nat × Nat)) : Option (Nat × Nat) :=
  l.foldl
    (fun acc x =>
      match acc with
      | none => some x
      | some a => if a.2 ≤ x.2 then some x else some a)
    none

/-- `BlockDev::largest_free_area` (`blockdev.rs:243-246`). -/
def BlockDevSpace.largest_free_area (K : Consts) (bd : BlockDevSpace) :
    Option (Nat × Nat) :=
  maxByLen (bd.free_areas K)

/-- The space-map state of a `RaidDev` (`raid.rs` `struct RaidDev`):
its stripe and region parameters, data-visible length, and the projected
`(start, length)` pairs of its used `RaidSegment`s. -/
structure RaidDevModel where
  stripe_sectors : Nat
  region_sectors : Nat
  length : Nat
  used : List (Nat × Nat)
  deriving DecidableEq, Repr

/-- `RaidDev::free_areas` (`raid.rs:163-182`): sort the used areas, append
the end sentinel `(length, 0)`, sweep the gaps. -/
def RaidDevModel.free_areas (rd : RaidDevModel) : List (Nat × Nat) :=
  freeFold (List.insertionSort rle rd.used ++ [(rd.length, 0)])

/-- The allocation loop of `RaidDev::get_some_space` (`raid.rs:190-199`):
walk the free areas in order, taking `min needed len` from each until
`needed` reaches zero; returns the final `needed` and the taken runs. -/
def gssLoop : Nat → List (Nat × Nat) → Nat × List (Nat × Nat)
  | needed, [] => (needed, [])
  | needed, (start, len) :: rest =>
    if needed = 0 then (needed, [])
    else
      let to_use := min needed len
      let r := gssLoop (needed - to_use) rest
      (r.1, (start, to_use) :: r.2)

/-- `RaidDev::get_some_space` (`raid.rs:186-202`): returns
`(size - needed, segs)`; a partial result is valid. -/
def RaidDevModel.get_some_space (rd : RaidDevModel) (size : Nat) :
    Nat × List (Nat × Nat) :=
  let r := gssLoop size rd.free_areas
  (size - r.1, r.2)

/-! ## RAID creation (`raid.rs:73-137`) and the zone builder (`froyo.rs:315-403`) -/

/-- Result of a fallible Rust function that can also `panic!`/`unwrap`. -/
inductive Outcome (α : Type) where
  | ok (a : α)
  | err (e : ErrKind)
  | panicked
  deriving DecidableEq, Repr

/-- A RAID member (`raid.rs` `enum RaidMember`), reduced to the data length
of a `Present` linear dev. -/
inductive RaidMemberModel where
  | present (data_length : Nat)
  | absent
  deriving DecidableEq, Repr

/-- `devs.iter().filter_map(present)`, projected to data lengths. -/
def presentLengths (devs : List RaidMemberModel) : List Nat :=
  devs.filterMap (fun d => match d with
    | .present l => some l
    | .absent => none)

/-- `RaidDev::create` (`raid.rs:74-137`): reject when too many members are
missing, take the first present member's data length, reject when any
present member's length differs, and build a device of length
`first_len * (N - FROYO_REDUNDANCY)`.

The missing-member check is `present_devs < devs.len() - FROYO_REDUNDANCY`
in usize arithmetic; it is rendered as
`present_devs + FROYO_REDUNDANCY < devs.len()`, equivalent for a nonempty
member vector (the source underflows for an empty one, where
`first_present_dev.unwrap()` can also panic — modelled as `panicked`). -/
def RaidDev.create (devs : List RaidMemberModel) (stripe region : Nat) :
    Outcome RaidDevModel :=
  if (presentLengths devs).length + FROYO_REDUNDANCY < devs.length then
    .err .invalidInput
  else
    match (presentLengths devs).head? with
    | none => .panicked
    | some first_present_dev_len =>
      if ¬ (presentLengths devs).all (fun l => l = first_present_dev_len) then
        .err .invalidInput
      else
        .ok ⟨stripe, region,
             first_present_dev_len * (devs.length - FROYO_REDUNDANCY), []⟩

/-- Modelled from the spec: `util.rs` (`align_to`) is not under `src/`;
§4.4 Step 6 specifies aligning up to a multiple of 512. -/
def alignTo (num align : Nat) : Nat :=
  ((num + align - 1) / align) * align

/-- Fuelled doubling loop of `u64::next_power_of_two` (std, not under
`src/`): the least power of two that is ≥ `n` (1 for `n = 0`). -/
def np2go (n : Nat) : Nat → Nat → Nat
  | 0, acc => acc
  | fuel + 1, acc => if acc < n then np2go n fuel (2 * acc) else acc

/-- `u64::next_power_of_two` (std): fuel `n` suffices because the
accumulator doubles from 1. -/
def nextPowerOfTwo (n : Nat) : Nat :=
  np2go n n 1

/-- The region-size doubling loop of `Froyo::create_redundant_zone`
(`froyo.rs:346-349`): `while common / region_sectors > MAX_REGIONS
{ region_sectors *= 2 }`, with explicit fuel; fuel `common + 1` suffices
because the divisor doubles each step. -/
def regionDouble (maxRegions common : Nat) : Nat → Nat → Nat
  | 0, rs => rs
  | fuel + 1, rs =>
    if maxRegions < common / rs then regionDouble maxRegions common fuel (rs * 2)
    else rs

/-- The quantities `Froyo::create_redundant_zone` derives for a new zone,
plus the `RaidDev::create` outcome it feeds them into. -/
structure ZoneResult where
  common : Nat
  region_sectors : Nat
  region_count : Nat
  mdata_sectors : Nat
  data_sectors : Nat
  n : Nat
  raid : Outcome RaidDevModel
  deriving DecidableEq, Repr

/-- `Froyo::create_redundant_zone` (`froyo.rs:315-403`): filter the members'
largest free areas by `MIN_DATA_ZONE_SECTORS`, require at least two, take
the minimum length as `common`, derive region size/count, bitmap size and
stripe-aligned data size, and create one RAID over per-member linear devs of
data length `data_sectors` (all present).

`data_sectors` is `(common - mdata_sectors) & !(STRIPE_SECTORS - 1)` in the
source; with `STRIPE_SECTORS` a power of two (its value lives in the missing
`consts.rs`; spec §4.4 Step 7 specifies rounding DOWN to a stripe multiple)
this is the round-down rendered here.  `common - mdata_sectors` uses
truncated `Nat` subtraction where u64 would wrap; theorems needing it add
the no-underflow hypothesis `mdata_sectors ≤ common`. -/
def createRedundantZone (K : Consts) (block_devs : List BlockDevSpace) :
    Option ZoneResult :=
  let bd_areas := (block_devs.filterMap
      (fun bd => bd.largest_free_area K)).filter
      (fun a => K.minDataZoneSectors ≤ a.2)
  if bd_areas.length < 2 then none
  else
    match (bd_areas.map (fun a => a.2)).min? with
    | none => none
    | some common_free_sectors =>
      let region_sectors :=
        regionDouble K.maxRegions common_free_sectors
          (common_free_sectors + 1) K.defaultRegionSectors
      let partial_region :=
        if common_free_sectors % region_sectors = 0 then 0 else 1
      let region_count :=
        common_free_sectors / region_sectors + partial_region
      let mdata_sectors :=
        nextPowerOfTwo (alignTo (8192 + region_count / 8) SECTOR_SIZE)
          / SECTOR_SIZE
      let data_sectors :=
        ((common_free_sectors - mdata_sectors) / K.stripeSectors)
          * K.stripeSectors
      let n := bd_areas.length
      some
        { common := common_free_sectors
          region_sectors := region_sectors
          region_count := region_count
          mdata_sectors := mdata_sectors
          data_sectors := data_sectors
          n := n
          raid := RaidDev.create
            (List.replicate n (.present data_sectors))
            K.stripeSectors region_sectors }

/-! ## Kernel status parsing (`raid.rs:204-244`, `thin.rs:153-207`) -/

/-- `str::split(sep)` for a one-character separator (std): every occurrence
splits, empty pieces are kept, the empty string yields one empty piece. -/
def splitSep (sep : Char) : List Char → List (List Char)
  | [] => [[]]
  | c :: rest =>
    let r := splitSep sep rest
    if c = sep then [] :: r
    else
      match r with
      | [] => [[c]]
      | h :: t => (c :: h) :: t

/-- `str::parse::<u64>` (std): optional leading `+`, then a nonempty digit
string (the u64 overflow bound is not modelled; the inputs of interest are
small). -/
def parseNat? (s : List Char) : Option Nat :=
  let s' := match s with
    | '+' :: r => r
    | _ => s
  if s' = [] then none
  else if s'.all (fun c => c.isDigit) then
    some (s'.foldl (fun n c => n * 10 + (c.toNat - 48)) 0)
  else none

def Outcome.bind : Outcome α → (α → Outcome β) → Outcome β
  | .ok a, f => f a
  | .err e, _ => .err e
  | .panicked, _ => .panicked

/-- `enum RaidStatus` (`raid.rs:39-44`). -/
inductive RaidStatus where
  | Good
  | Degraded (n : Nat)
  | Failed
  deriving DecidableEq, Repr

/-- `enum RaidAction` (`raid.rs:46-56`). -/
inductive RaidAction where
  | Idle
  | Frozen
  | Resync
  | Recover
  | Check
  | Repair
  | Reshape
  | Unknown
  deriving DecidableEq, Repr

/-- The health-character loop of `RaidDev::status` (`raid.rs:215-225`):
count `'D'`s, accept `'A'`/`'a'`, and return `InvalidData` on anything
else. -/
def healthBad : List Char → Outcome Nat
  | [] => .ok 0
  | c :: rest =>
    if c = 'A' then healthBad rest
    else if c = 'a' then healthBad rest
    else if c = 'D' then (healthBad rest).bind (fun n => .ok (n + 1))
    else .err .invalidData

/-- `RaidDev::status` (`raid.rs:204-244`), applied to the status strings of
the rows `table_status` returned: `status.pop().unwrap()` takes the LAST row
(panicking when there is none), the status field is split on spaces, field 2
is the health characters (indexing panics when missing), field 4 is the sync
action (indexing panics when missing; an unknown action maps to `Unknown`
without error). -/
def RaidDev.status (rows : List (List Char)) :
    Outcome (RaidStatus × RaidAction) :=
  match rows.getLast? with
  | none => .panicked
  | some status_line =>
    let status_bits := splitSep ' ' status_line
    match status_bits.get? 2 with
    | none => .panicked
    | some health_chars =>
      (healthBad health_chars).bind (fun bad =>
        let raid_status :=
          if bad = 0 then RaidStatus.Good
          else if 1 ≤ bad ∧ bad ≤ FROYO_REDUNDANCY then RaidStatus.Degraded bad
          else RaidStatus.Failed
        match status_bits.get? 4 with
        | none => .panicked
        | some action =>
          let raid_action :=
            if action = "idle".toList then RaidAction.Idle
            else if action = "frozen".toList then RaidAction.Frozen
            else if action = "resync".toList then RaidAction.Resync
            else if action = "recover".toList then RaidAction.Recover
            else if action = "check".toList then RaidAction.Check
            else if action = "repair".toList then RaidAction.Repair
            else if action = "reshape".toList then RaidAction.Reshape
            else RaidAction.Unknown
          .ok (raid_status, raid_action))

/-- `struct ThinPoolBlockUsage` (`thin.rs:40-46`). -/
structure ThinPoolBlockUsage where
  used_meta : Nat
  total_meta : Nat
  used_data : Nat
  total_data : Nat
  deriving DecidableEq, Repr

/-- `enum ThinPoolWorkingStatus` (`thin.rs:54-60`). -/
inductive ThinPoolWorkingStatus where
  | Good
  | ReadOnly
  | OutOfSpace
  | NeedsCheck
  deriving DecidableEq, Repr

/-- `enum ThinPoolStatus` (`thin.rs:48-52`). -/
inductive ThinPoolStatus where
  | Good (w : ThinPoolWorkingStatus) (u : ThinPoolBlockUsage)
  | Fail
  deriving DecidableEq, Repr

/-- `vals[i].parse::<u64>().unwrap()`: index out of bounds or a failed parse
both panic. -/
def indexParse (l : List (List Char)) (i : Nat) : Outcome Nat :=
  match l.get? i with
  | none => .panicked
  | some s =>
    match parseNat? s with
    | none => .panicked
    | some n => .ok n

/-- `ThinPoolDev::status` (`thin.rs:153-207`): error (`InvalidData`) unless
exactly one row; `"Fail"` prefix short-circuits to `Fail`; split on spaces
and error when fewer than 8 fields; parse `used/total` pairs from fields 1
and 2 (panicking on malformed numbers); field 7 must be `"-"` or
`"needs_check"`, field 4 one of `"rw"`/`"ro"`/`"out_of_data_space"`, anything
else is an `InvalidData` error. -/
def ThinPoolDev.status (rows : List (List Char)) : Outcome ThinPoolStatus :=
  if rows.length ≠ 1 then .err .invalidData
  else
    match rows.getLast? with
    | none => .panicked
    | some status_line =>
      if "Fail".toList.isPrefixOf status_line then .ok .Fail
      else
        let status_vals := splitSep ' ' status_line
        if status_vals.length < 8 then .err .invalidData
        else
          let meta_vals := splitSep '/' (status_vals.getD 1 [])
          let data_vals := splitSep '/' (status_vals.getD 2 [])
          (indexParse meta_vals 0).bind (fun used_meta =>
          (indexParse meta_vals 1).bind (fun total_meta =>
          (indexParse data_vals 0).bind (fun used_data =>
          (indexParse data_vals 1).bind (fun total_data =>
            let usage : ThinPoolBlockUsage :=
              ⟨used_meta, total_meta, used_data, total_data⟩
            if status_vals.getD 7 [] = "-".toList then
              if status_vals.getD 4 [] = "rw".toList then
                .ok (.Good .Good usage)
              else if status_vals.getD 4 [] = "ro".toList then
                .ok (.Good .ReadOnly usage)
              else if status_vals.getD 4 [] = "out_of_data_space".toList then
                .ok (.Good .OutOfSpace usage)
              else .err .invalidData
            else if status_vals.getD 7 [] = "needs_check".toList then
              .ok (.Good .NeedsCheck usage)
            else .err .invalidData))))

/-! ## Pool status aggregation (`froyo.rs:417-438`) -/

/-- `enum FroyoStatus` (`froyo.rs:51-55`). -/
inductive FroyoStatus where
  | Good
  | Degraded (n : Nat)
  | Failed
  deriving DecidableEq, Repr

/-- The zone walk of `Froyo::status` (`froyo.rs:419-430`), applied to the
per-zone statuses in iteration order (ascending raid id; errors from
`rd.status()` propagate before this loop runs and are not modelled):
`Failed` breaks out, `Degraded(x)` overwrites the running status, `Good`
leaves it unchanged. -/
def froyoStatusLoop : FroyoStatus → List RaidStatus → FroyoStatus
  | st, [] => st
  | st, r :: rest =>
    match r with
    | .Failed => .Failed
    | .Degraded x => froyoStatusLoop (.Degraded x) rest
    | .Good => froyoStatusLoop st rest

/-- `Froyo::status`, zone aggregation part. -/
def Froyo.statusOf (zones : List RaidStatus) : FroyoStatus :=
  froyoStatusLoop .Good zones

/-- The degraded counts of the zones, in iteration order. -/
def degradedCounts (zones : List RaidStatus) : List Nat :=
  zones.filterMap (fun s => match s with
    | .Degraded x => some x
    | _ => none)

/-- Amended specification of the aggregation: `Failed` when any zone failed,
otherwise `Degraded k` with `k` from the LAST degraded zone in iteration
order, otherwise `Good`. -/
def froyoStatusAmendedSpec (zones : List RaidStatus) : FroyoStatus :=
  if RaidStatus.Failed ∈ zones then .Failed
  else
    match (degradedCounts zones).getLast? with
    | some k => .Degraded k
    | none => .Good

/-! ## `ThinDev::extend` (`thin.rs:341-361`) -/

/-- The state of a `ThinDev` relevant to `extend`: its `size` field. -/
structure ThinDevModel where
  size : Nat
  deriving DecidableEq, Repr

/-- `ThinDev::extend` (`thin.rs:341-361`): `self.size` is increased first;
the results of the three kernel calls (`table_load`, suspend, resume) are
oracle arguments, and an early `try!` return leaves the increased size in
place. -/
def ThinDev.extend (td : ThinDevModel) (sectors : Nat)
    (table_load device_suspend device_resume : Except ErrKind Unit) :
    ThinDevModel × Except ErrKind Unit :=
  let td' : ThinDevModel := { size := td.size + sectors }
  let res : Except ErrKind Unit :=
    match table_load with
    | .error e => .error e
    | .ok _ =>
      match device_suspend with
      | .error e => .error e
      | .ok _ => device_resume
  (td', res)

/-! ## `BlockDev::new` (`blockdev.rs:55-113`) -/

/-- Whether a byte is a UTF-8 continuation byte. -/
def contByte (b : Nat) : Bool :=
  decide (0x80 ≤ b ∧ b ≤ 0xBF)

/-- UTF-8 validity of a byte sequence, as checked by `str::from_utf8`
(std, not under `src/`): the standard RFC 3629 acceptor. -/
def validUtf8 : List Nat → Bool
  | [] => true
  | b :: rest =>
    if b < 0x80 then validUtf8 rest
    else if 0xC2 ≤ b ∧ b ≤ 0xDF then
      match rest with
      | c1 :: r => contByte c1 && validUtf8 r
      | [] => false
    else if b = 0xE0 then
      match rest with
      | c1 :: c2 :: r =>
        decide (0xA0 ≤ c1 ∧ c1 ≤ 0xBF) && contByte c2 && validUtf8 r
      | _ => false
    else if (0xE1 ≤ b ∧ b ≤ 0xEC) ∨ b = 0xEE ∨ b = 0xEF then
      match rest with
      | c1 :: c2 :: r => contByte c1 && contByte c2 && validUtf8 r
      | _ => false
    else if b = 0xED then
      match rest with
      | c1 :: c2 :: r =>
        decide (0x80 ≤ c1 ∧ c1 ≤ 0x9F) && contByte c2 && validUtf8 r
      | _ => false
    else if b = 0xF0 then
      match rest with
      | c1 :: c2 :: c3 :: r =>
        decide (0x90 ≤ c1 ∧ c1 ≤ 0xBF) && contByte c2 && contByte c3 &&
          validUtf8 r
      | _ => false
    else if 0xF1 ≤ b ∧ b ≤ 0xF3 then
      match rest with
      | c1 :: c2 :: c3 :: r =>
        contByte c1 && contByte c2 && contByte c3 && validUtf8 r
      | _ => false
    else if b = 0xF4 then
      match rest with
      | c1 :: c2 :: c3 :: r =>
        decide (0x80 ≤ c1 ∧ c1 ≤ 0x8F) && contByte c2 && contByte c3 &&
          validUtf8 r
      | _ => false
    else false

/-- `LittleEndian::read_u32` of the first four bytes. -/
def leU32 (l : List Nat) : Nat :=
  l.getD 0 0 + 256 * (l.getD 1 0 + 256 * (l.getD 2 0 + 256 * l.getD 3 0))

/-- The fields `BlockDev::new` extracts from a valid header. -/
structure BlockDevInfo where
  froyodev_id : List Nat
  id : List Nat
  sectors : Nat
  deriving DecidableEq, Repr

/-- `BlockDev::new` (`blockdev.rs:55-113`) on the 4096-byte header `buf`:
device-path/IO failures (`Device::from_str`, `open`, `read`, `blkdev_size`)
are folded into the oracle `ioOk` (an unopenable path); then the magic bytes
`buf[4..20)` and the header CRC over `buf[4..4096)` are checked, each
failure an `InvalidInput` error; finally the member-id bytes `buf[32..64)`
and pool-id bytes `buf[128..160)` pass through `from_utf8(..).unwrap()`,
which panics on invalid UTF-8.  `fro_magic` stands for the `FRO_MAGIC`
constant from the missing `consts.rs` (spec §4.1: a fixed 16-byte magic). -/
def BlockDev.new (crc32 : List Nat → Nat) (fro_magic : List Nat)
    (ioOk : Bool) (buf : List Nat) (sectors : Nat) : Outcome BlockDevInfo :=
  if ¬ ioOk then .err .permissionDenied
  else if (buf.drop 4).take 16 ≠ fro_magic then .err .invalidInput
  else if crc32 ((buf.drop 4).take (HEADER_SIZE - 4)) ≠ leU32 (buf.take 4)
  then .err .invalidInput
  else
    let id := (buf.drop 32).take 32
    let froyodev_id := (buf.drop 128).take 32
    if validUtf8 id then
      if validUtf8 froyodev_id then .ok ⟨froyodev_id, id, sectors⟩
      else .panicked
    else .panicked

/-! ## Lemmas about the space-map machinery -/

/-- Interval disjointness of two `(start, length)` areas. -/
def disjointI (a b : Nat × Nat) : Prop :=
  a.1 + a.2 ≤ b.1 ∨ b.1 + b.2 ≤ a.1

instance : DecidableRel disjointI := fun a b => by
  unfold disjointI; infer_instance

theorem disjointI_symm : ∀ {a b : Nat × Nat}, disjointI a b → disjointI b a := by
  intro a b h; unfold disjointI at *; omega

/-- `a` ends before `b` starts. -/
def endLe (a b : Nat × Nat) : Prop :=
  a.1 + a.2 ≤ b.1

/-- Start-ordering relations on areas. -/
def startLe (a b : Nat × Nat) : Prop :=
  a.1 ≤ b.1

def startLt (a b : Nat × Nat) : Prop :=
  a.1 < b.1

/-- The lower bound on where areas of a sweep input begin. -/
def minStart (p : Nat) : List (Nat × Nat) → Nat
  | [] => p
  | (s, _) :: _ => min p s

theorem freeFold_foldl_eq_sweep (us : List (Nat × Nat)) :
    ∀ p acc,
      (us.foldl
        (fun st u =>
          (u.1 + u.2,
           if st.1 < u.1 then st.2 ++ [(st.1, u.1 - st.1)] else st.2))
        (p, acc)).2 = acc ++ sweep p us := by
  induction us with
  | nil => intro p acc; simp [sweep]
  | cons u rest ih =>
    intro p acc
    obtain ⟨s, l⟩ := u
    simp only [List.foldl_cons, sweep]
    by_cases h : p < s
    · rw [if_pos h, ih, if_pos h]
      simp
    · rw [if_neg h, ih, if_neg h]

theorem freeFold_eq_sweep (us : List (Nat × Nat)) : freeFold us = sweep 0 us := by
  unfold freeFold
  rw [freeFold_foldl_eq_sweep]
  simp

theorem sweep_mem_start {us : List (Nat × Nat)}
    (hs : us.Pairwise startLe) :
    ∀ p, ∀ f ∈ sweep p us, minStart p us ≤ f.1 := by
  induction us with
  | nil => intro p f hf; simp [sweep] at hf
  | cons u rest ih =>
    intro p f hf
    obtain ⟨s, l⟩ := u
    rw [List.pairwise_cons] at hs
    have hrest : ∀ g ∈ sweep (s + l) rest, minStart (s + l) rest ≤ g.1 :=
      ih hs.2 (s + l)
    have hmin : s ≤ minStart (s + l) rest := by
      cases rest with
      | nil => simp [minStart]
      | cons v tl =>
        obtain ⟨s2, l2⟩ := v
        have := hs.1 (s2, l2) (by simp)
        simp [minStart, startLe] at *
        omega
    simp only [sweep] at hf
    by_cases h : p < s
    · rw [if_pos h] at hf
      rcases List.mem_cons.mp hf with rfl | hf
      · simp [minStart]
      · have := hrest f hf
        simp [minStart]; omega
    · rw [if_neg h] at hf
      have := hrest f hf
      simp [minStart]; omega

theorem sweep_pairwise {us : List (Nat × Nat)}
    (hs : us.Pairwise startLe) :
    ∀ p, (sweep p us).Pairwise startLt := by
  induction us with
  | nil => intro p; simp [sweep]
  | cons u rest ih =>
    intro p
    obtain ⟨s, l⟩ := u
    rw [List.pairwise_cons] at hs
    have hrest := ih hs.2 (s + l)
    have hmin : ∀ g ∈ sweep (s + l) rest, s ≤ g.1 := by
      intro g hg
      have h1 := sweep_mem_start hs.2 (s + l) g hg
      have : s ≤ minStart (s + l) rest := by
        cases rest with
        | nil => simp [minStart]
        | cons v tl =>
          obtain ⟨s2, l2⟩ := v
          have := hs.1 (s2, l2) (by simp)
          simp [minStart, startLe] at *
          omega
      omega
    simp only [sweep]
    by_cases h : p < s
    · rw [if_pos h]
      refine List.pairwise_cons.mpr ⟨?_, hrest⟩
      intro g hg
      have := hmin g hg
      unfold startLt
      omega
    · rw [if_neg h]; exact hrest

theorem sweep_disjoint {us : List (Nat × Nat)}
    (hd : us.Pairwise endLe) :
    ∀ p, ∀ f ∈ sweep p us, ∀ u ∈ us, disjointI f u := by
  induction us with
  | nil => intro p f hf; simp [sweep] at hf
  | cons w rest ih =>
    intro p f hf u hu
    obtain ⟨s, l⟩ := w
    rw [List.pairwise_cons] at hd
    have hsorted : rest.Pairwise startLe :=
      hd.2.imp (fun hab => by unfold endLe startLe at *; omega)
    have htail : ∀ g ∈ sweep (s + l) rest, s + l ≤ g.1 := by
      intro g hg
      have h1 := sweep_mem_start hsorted (s + l) g hg
      cases rest with
      | nil => simp [minStart] at h1; omega
      | cons v tl =>
        obtain ⟨s2, l2⟩ := v
        have := hd.1 (s2, l2) (by simp)
        simp [minStart] at h1
        unfold endLe at this
        omega
    simp only [sweep] at hf
    by_cases h : p < s
    · rw [if_pos h] at hf
      rcases List.mem_cons.mp hf with rfl | hf
      · rcases List.mem_cons.mp hu with rfl | hu
        · left; unfold disjointI endLe at *; simp; omega
        · have := hd.1 u hu
          left; unfold disjointI endLe at *; simp; omega
      · rcases List.mem_cons.mp hu with rfl | hu
        · right; unfold disjointI endLe at *
          have := htail f hf
          omega
        · exact ih hd.2 (s + l) f hf u hu
    · rw [if_neg h] at hf
      rcases List.mem_cons.mp hu with rfl | hu
      · right; unfold disjointI endLe at *
        have := htail f hf
        omega
      · exact ih hd.2 (s + l) f hf u hu

theorem maxByLen_go {l : List (Nat × Nat)} (hp : l.Pairwise startLt) :
    ∀ a, (∀ x ∈ l, a.1 < x.1) →
    ∃ m, l.foldl
        (fun acc x =>
          match acc with
          | none => some x
          | some b => if b.2 ≤ x.2 then some x else some b)
        (some a) = some m ∧
      (m = a ∨ m ∈ l) ∧ a.2 ≤ m.2 ∧ (a.2 = m.2 → a.1 ≤ m.1) ∧
      ∀ x ∈ l, x.2 ≤ m.2 ∧ (x.2 = m.2 → x.1 ≤ m.1) := by
  induction l with
  | nil =>
    intro a _
    exact ⟨a, rfl, Or.inl rfl, le_refl _, fun _ => le_refl _, by simp⟩
  | cons y ys ih =>
    intro a ha
    rw [List.pairwise_cons] at hp
    simp only [List.foldl_cons]
    by_cases h : a.2 ≤ y.2
    · rw [if_pos h]
      obtain ⟨m, hm, hmem, hle, htie, hall⟩ :=
        ih hp.2 y (fun x hx => hp.1 x hx)
      have hmy : m = y ∨ m ∈ ys := hmem
      have hmemLater : m ∈ y :: ys := by
        rcases hmy with rfl | hmy
        · simp
        · simp [hmy]
      refine ⟨m, hm, Or.inr hmemLater, le_trans h hle, ?_, ?_⟩
      · intro he
        have h1 : a.1 < m.1 := by
          rcases hmy with rfl | hmy
          · exact ha m (by simp)
          · exact ha m (by simp [hmy])
        omega
      · intro x hx
        rcases List.mem_cons.mp hx with rfl | hx
        · exact ⟨hle, fun he => by
            rcases hmy with rfl | hmy
            · simp
            · have := hp.1 m hmy
              unfold startLt at this
              omega⟩
        · exact hall x hx
    · rw [if_neg h]
      obtain ⟨m, hm, hmem, hle, htie, hall⟩ :=
        ih hp.2 a (fun x hx => ha x (by simp [hx]))
      refine ⟨m, hm, ?_, hle, htie, ?_⟩
      · rcases hmem with rfl | hmem
        · exact Or.inl rfl
        · exact Or.inr (by simp [hmem])
      · intro x hx
        rcases List.mem_cons.mp hx with rfl | hx
        · constructor
          · omega
          · intro he; omega
        · exact hall x hx

theorem maxByLen_spec {l : List (Nat × Nat)} (hp : l.Pairwise startLt) :
    (maxByLen l = none → l = []) ∧
    ∀ m, maxByLen l = some m →
      m ∈ l ∧ ∀ x ∈ l, x.2 ≤ m.2 ∧ (x.2 = m.2 → x.1 ≤ m.1) := by
  cases l with
  | nil => exact ⟨fun _ => rfl, fun m hm => by simp [maxByLen] at hm⟩
  | cons a tl =>
    rw [List.pairwise_cons] at hp
    obtain ⟨m, hm, hmem, hle, htie, hall⟩ :=
      maxByLen_go hp.2 a (fun x hx => hp.1 x hx)
    have hfold : maxByLen (a :: tl) = some m := by
      unfold maxByLen
      simpa using hm
    constructor
    · intro hnone; rw [hfold] at hnone; cases hnone
    · intro m' hm'
      rw [hfold] at hm'
      injection hm' with hm''
      subst hm''
      constructor
      · rcases hmem with rfl | hmem
        · simp
        · simp [hmem]
      · intro x hx
        rcases List.mem_cons.mp hx with rfl | hx
        · exact ⟨hle, htie⟩
        · exact hall x hx

theorem rle_to_startLe {l : List (Nat × Nat)} (h : l.Pairwise rle) :
    l.Pairwise startLe :=
  h.imp (fun hab => by unfold rle startLe at *; omega)

theorem bd_free_pairwise (K : Consts) (bd : BlockDevSpace)
    (hwf : ∀ a ∈ bd.linear_devs.flatMap
      (fun d => d.meta_segments ++ d.data_segments), a.1 ≤ bd.sectors) :
    (bd.free_areas K).Pairwise startLt := by
  unfold BlockDevSpace.free_areas
  rw [freeFold_eq_sweep]
  apply sweep_pairwise
  apply List.pairwise_append.mpr
  refine ⟨rle_to_startLe (List.sorted_insertionSort rle _), by simp, ?_⟩
  intro a ha b hb
  have hb' : b = (bd.sectors, 0) := by simpa using hb
  subst hb'
  have ha' : a ∈ (0, K.mdaZoneSectors) ::
      (bd.sectors - K.mdaZoneSectors, K.mdaZoneSectors) ::
      bd.linear_devs.flatMap (fun d => d.meta_segments ++ d.data_segments) :=
    (List.perm_insertionSort rle _).mem_iff.mp ha
  unfold startLe
  rcases List.mem_cons.mp ha' with rfl | ha'
  · simp
  · rcases List.mem_cons.mp ha' with rfl | ha'
    · simp
    · exact hwf a ha'

/-- C5 (amended): `largest_free_area` returns a free area of maximum
length, ties broken by the HIGHEST start offset (Rust's `max_by_key` keeps
the last of equally maximal elements, and `free_areas` lists areas in
increasing start order), and `None` exactly when there is no free area.
The hypothesis is the data-model invariant that child segments start within
the device. -/
theorem largest_free_area_spec (K : Consts) (bd : BlockDevSpace)
    (hwf : ∀ a ∈ bd.linear_devs.flatMap
      (fun d => d.meta_segments ++ d.data_segments), a.1 ≤ bd.sectors) :
    (bd.largest_free_area K = none → bd.free_areas K = []) ∧
    ∀ m, bd.largest_free_area K = some m →
      m ∈ bd.free_areas K ∧
      ∀ x ∈ bd.free_areas K, x.2 ≤ m.2 ∧ (x.2 = m.2 → x.1 ≤ m.1) := by
  have hp := bd_free_pairwise K bd hwf
  have h := maxByLen_spec hp
  simpa [BlockDevSpace.largest_free_area] using h

/-- C5 witness: the characterization applied to a concrete device. -/
theorem largest_free_area_spec_witness :
    (∀ a ∈ ([⟨[(2, 1)], []⟩] : List LinearDevModel).flatMap
      (fun d => d.meta_segments ++ d.data_segments), a.1 ≤ 8) ∧
    ((BlockDevSpace.largest_free_area ⟨1, 1, 1, 1, 1, 1⟩ ⟨8, [⟨[(2, 1)], []⟩]⟩
        = none →
      BlockDevSpace.free_areas ⟨1, 1, 1, 1, 1, 1⟩ ⟨8, [⟨[(2, 1)], []⟩]⟩ = []) ∧
    ∀ m, BlockDevSpace.largest_free_area ⟨1, 1, 1, 1, 1, 1⟩
        ⟨8, [⟨[(2, 1)], []⟩]⟩ = some m →
      m ∈ BlockDevSpace.free_areas ⟨1, 1, 1, 1, 1, 1⟩ ⟨8, [⟨[(2, 1)], []⟩]⟩ ∧
      ∀ x ∈ BlockDevSpace.free_areas ⟨1, 1, 1, 1, 1, 1⟩ ⟨8, [⟨[(2, 1)], []⟩]⟩,
        x.2 ≤ m.2 ∧ (x.2 = m.2 → x.1 ≤ m.1)) :=
  ⟨by decide, largest_free_area_spec ⟨1, 1, 1, 1, 1, 1⟩ ⟨8, [⟨[(2, 1)], []⟩]⟩
    (by decide)⟩

/-- C5 counterexample: a device with two equal-length free areas `(1,3)` and
`(6,3)`; `largest_free_area` returns the HIGHER start `(6,3)`, not the
lowest as claimed. -/
theorem largest_free_area_ties_counterexample :
    BlockDevSpace.free_areas ⟨1, 1, 1, 1, 1, 1⟩ ⟨10, [⟨[(4, 2)], []⟩]⟩
      = [(1, 3), (6, 3)] ∧
    BlockDevSpace.largest_free_area ⟨1, 1, 1, 1, 1, 1⟩ ⟨10, [⟨[(4, 2)], []⟩]⟩
      = some (6, 3) ∧
    ((6, 3) : Nat × Nat) ≠ (1, 3) := by decide

theorem gssLoop_needed_le (free : List (Nat × Nat)) :
    ∀ needed, (gssLoop needed free).1 ≤ needed := by
  induction free with
  | nil => intro needed; simp [gssLoop]
  | cons u rest ih =>
    intro needed
    obtain ⟨s, l⟩ := u
    simp only [gssLoop]
    by_cases h : needed = 0
    · rw [if_pos h]
    · rw [if_neg h]
      have := ih (needed - min needed l)
      simp only []
      omega

theorem gssLoop_sum (free : List (Nat × Nat)) :
    ∀ needed,
      (((gssLoop needed free).2.map (fun s => s.2)).sum)
        = needed - (gssLoop needed free).1 := by
  induction free with
  | nil => intro needed; simp [gssLoop]
  | cons u rest ih =>
    intro needed
    obtain ⟨s, l⟩ := u
    simp only [gssLoop]
    by_cases h : needed = 0
    · rw [if_pos h]; simp [h]
    · rw [if_neg h]
      have h1 := ih (needed - min needed l)
      have h2 := gssLoop_needed_le rest (needed - min needed l)
      simp only [List.map_cons, List.sum_cons]
      omega

theorem gssLoop_sub (free : List (Nat × Nat)) :
    ∀ needed s, s ∈ (gssLoop needed free).2 →
      ∃ l, (s.1, l) ∈ free ∧ s.2 ≤ l := by
  induction free with
  | nil => intro needed s hs; simp [gssLoop] at hs
  | cons u rest ih =>
    intro needed s hs
    obtain ⟨st, ln⟩ := u
    simp only [gssLoop] at hs
    by_cases h : needed = 0
    · rw [if_pos h] at hs; simp at hs
    · rw [if_neg h] at hs
      simp only [List.mem_cons] at hs
      rcases hs with rfl | hs
      · exact ⟨ln, by simp, by simp [min_le_right]⟩
      · obtain ⟨l, hl, hle⟩ := ih (needed - min needed ln) s hs
        exact ⟨l, by simp [hl], hle⟩

theorem raid_free_disjoint (rd : RaidDevModel)
    (h1 : rd.used.Pairwise disjointI)
    (h2 : ∀ u ∈ rd.used, 0 < u.2)
    (h3 : ∀ u ∈ rd.used, u.1 + u.2 ≤ rd.length) :
    ∀ f ∈ rd.free_areas, ∀ u ∈ rd.used, disjointI f u := by
  intro f hf u hu
  unfold RaidDevModel.free_areas at hf
  rw [freeFold_eq_sweep] at hf
  have hperm := List.perm_insertionSort rle rd.used
  have hsorted : (List.insertionSort rle rd.used).Pairwise rle :=
    List.sorted_insertionSort rle rd.used
  have hdisj : (List.insertionSort rle rd.used).Pairwise disjointI :=
    (hperm.pairwise_iff (fun h => disjointI_symm h)).mpr h1
  have hend : (List.insertionSort rle rd.used).Pairwise endLe := by
    apply (hsorted.and hdisj).imp_of_mem
    intro a b ha hb hab
    have hbpos : 0 < b.2 := h2 b (hperm.mem_iff.mp hb)
    unfold rle disjointI endLe at *
    omega
  have hendall : (List.insertionSort rle rd.used ++ [(rd.length, 0)]).Pairwise
      endLe := by
    apply List.pairwise_append.mpr
    refine ⟨hend, by simp, ?_⟩
    intro a ha b hb
    have hb' : b = (rd.length, 0) := by simpa using hb
    subst hb'
    exact h3 a (hperm.mem_iff.mp ha)
  exact sweep_disjoint hendall 0 f hf u
    (List.mem_append.mpr (Or.inl (hperm.mem_iff.mpr hu)))

/-- C6: `get_some_space(requested)` returns `(obtained, segments)` with
`obtained ≤ requested`, the segment lengths summing to `obtained`, and every
returned segment disjoint from every existing used segment.  The hypotheses
are the data-model invariants of a `RaidDev`: used segments are pairwise
disjoint, nonempty, and lie within `[0, length)`. -/
theorem get_some_space_spec (rd : RaidDevModel) (size : Nat)
    (h1 : rd.used.Pairwise disjointI)
    (h2 : ∀ u ∈ rd.used, 0 < u.2)
    (h3 : ∀ u ∈ rd.used, u.1 + u.2 ≤ rd.length) :
    (rd.get_some_space size).1 ≤ size ∧
    (((rd.get_some_space size).2.map (fun s => s.2)).sum
      = (rd.get_some_space size).1) ∧
    ∀ s ∈ (rd.get_some_space size).2, ∀ u ∈ rd.used, disjointI s u := by
  unfold RaidDevModel.get_some_space
  refine ⟨Nat.sub_le _ _, ?_, ?_⟩
  · simpa using gssLoop_sum rd.free_areas size
  · intro s hs u hu
    simp only at hs
    obtain ⟨l, hl, hle⟩ := gssLoop_sub rd.free_areas size s hs
    have hd := raid_free_disjoint rd h1 h2 h3 (s.1, l) hl u hu
    unfold disjointI at *
    simp only at hd
    omega

/-- C6 witness: the allocation property at a concrete `RaidDev`. -/
theorem get_some_space_spec_witness :
    (([(30, 2), (10, 5)] : List (Nat × Nat)).Pairwise disjointI) ∧
    (∀ u ∈ ([(30, 2), (10, 5)] : List (Nat × Nat)), 0 < u.2) ∧
    (∀ u ∈ ([(30, 2), (10, 5)] : List (Nat × Nat)), u.1 + u.2 ≤ 100) ∧
    ((RaidDevModel.get_some_space ⟨0, 0, 100, [(30, 2), (10, 5)]⟩ 12).1 ≤ 12 ∧
     (((RaidDevModel.get_some_space ⟨0, 0, 100, [(30, 2), (10, 5)]⟩ 12).2.map
        (fun s => s.2)).sum
       = (RaidDevModel.get_some_space ⟨0, 0, 100, [(30, 2), (10, 5)]⟩ 12).1) ∧
     ∀ s ∈ (RaidDevModel.get_some_space ⟨0, 0, 100, [(30, 2), (10, 5)]⟩ 12).2,
       ∀ u ∈ ([(30, 2), (10, 5)] : List (Nat × Nat)), disjointI s u) :=
  ⟨by decide, by decide, by decide,
   get_some_space_spec ⟨0, 0, 100, [(30, 2), (10, 5)]⟩ 12
     (by decide) (by decide) (by decide)⟩

/-! ## C1: pool status aggregation -/

/-- The degraded count of the LAST degraded zone in iteration order. -/
def lastDegraded : List RaidStatus → Option Nat
  | [] => none
  | r :: rest =>
    match r with
    | .Degraded x => some ((lastDegraded rest).getD x)
    | _ => lastDegraded rest

theorem froyoStatusLoop_eq (zones : List RaidStatus) :
    ∀ st, froyoStatusLoop st zones =
      if RaidStatus.Failed ∈ zones then .Failed
      else
        match lastDegraded zones with
        | some k => .Degraded k
        | none => st := by
  induction zones with
  | nil => intro st; simp [froyoStatusLoop, lastDegraded]
  | cons r rest ih =>
    intro st
    cases r with
    | Failed => simp [froyoStatusLoop]
    | Good =>
      rw [froyoStatusLoop, ih st]
      simp [lastDegraded, List.mem_cons]
    | Degraded x =>
      rw [froyoStatusLoop, ih (.Degraded x)]
      by_cases h : RaidStatus.Failed ∈ rest
      · simp [lastDegraded, List.mem_cons, h]
      · cases hld : lastDegraded rest <;>
          simp [lastDegraded, List.mem_cons, h, hld]

/-- C1 (amended): the pool status is `Failed` when any zone reports
`Failed`; otherwise `Degraded k` where `k` is the degraded count of the
LAST degraded zone in iteration order (not the maximum, since the loop
overwrites the running status); otherwise `Good`. -/
theorem froyo_status_amended (zones : List RaidStatus) :
    Froyo.statusOf zones =
      if RaidStatus.Failed ∈ zones then .Failed
      else
        match lastDegraded zones with
        | some k => .Degraded k
        | none => .Good := by
  unfold Froyo.statusOf
  exact froyoStatusLoop_eq zones .Good

/-- C1 counterexample: with zones `[Degraded 2, Degraded 1]` the pool status
is `Degraded 1` (the last degraded zone), not `Degraded 2` (the maximum) as
claimed. -/
theorem froyo_status_counterexample :
    Froyo.statusOf [.Degraded 2, .Degraded 1] = .Degraded 1 ∧
    FroyoStatus.Degraded 1 ≠ FroyoStatus.Degraded 2 := by decide

/-! ## C2, C3: the dual-MDA protocol -/

theorem Timespec.cmp_lt_iff (a b : Timespec) :
    Timespec.cmp a b = .lt ↔
      (a.sec < b.sec ∨ (a.sec = b.sec ∧ a.nsec < b.nsec)) := by
  unfold Timespec.cmp
  split_ifs <;> simp <;> omega

theorem Timespec.cmp_gt_iff (a b : Timespec) :
    Timespec.cmp a b = .gt ↔
      (b.sec < a.sec ∨ (b.sec = a.sec ∧ b.nsec < a.nsec)) := by
  unfold Timespec.cmp
  split_ifs <;> simp <;> omega

/-- The state after a successful `write_mdax` that selected slot A. -/
def writtenA (crc32 : List Nat → Nat) (bd : BlockDevMd) (t : Timespec)
    (p : List Nat) : BlockDevMd :=
  { bd with mdaa := ⟨t, p.length, crc32 p⟩,
            zoneA := p ++ bd.zoneA.drop p.length }

/-- The state after a successful `write_mdax` that selected slot B. -/
def writtenB (crc32 : List Nat → Nat) (bd : BlockDevMd) (t : Timespec)
    (p : List Nat) : BlockDevMd :=
  { bd with mdab := ⟨t, p.length, crc32 p⟩,
            zoneB := p ++ bd.zoneB.drop p.length }

/-- C2 (amended): the MDA round-trip `write_mdax(time, p)` then
`read_mdax() = p` holds for any payload `p` of length at most
`MDAX_ZONE_SECTORS × 512` PROVIDED the caller-supplied `time` is strictly
newer than both MDA timestamps and is not the zero (unused) marker;
otherwise `read_mdax` selects the other slot (see the counterexample). -/
theorem mdax_roundtrip (crc32 : List Nat → Nat) (K : Consts)
    (bd : BlockDevMd) (t : Timespec) (p : List Nat)
    (hlen : p.length ≤ K.mdaxZoneSectors * SECTOR_SIZE)
    (ha : Timespec.cmp bd.mdaa.last_updated t = .lt)
    (hb : Timespec.cmp bd.mdab.last_updated t = .lt)
    (ht : t ≠ Timespec.zero) :
    ∃ bd', write_mdax crc32 K bd t p = .ok bd' ∧
      read_mdax crc32 bd' = .ok p := by
  have hno : ¬ (p.length > K.mdaxZoneSectors * SECTOR_SIZE) := by omega
  cases hos : olderSlot bd with
  | A =>
    refine ⟨writtenA crc32 bd t p, ?_, ?_⟩
    · simp [write_mdax, writtenA, hos, hno]
    · have hgt : Timespec.cmp t bd.mdab.last_updated = .gt := by
        rw [Timespec.cmp_gt_iff]
        rw [Timespec.cmp_lt_iff] at hb
        omega
      have hns : newerSlot (writtenA crc32 bd t p) = .A := by
        simp [newerSlot, writtenA, hgt]
      have h1 : (writtenA crc32 bd t p).mdaa = ⟨t, p.length, crc32 p⟩ := rfl
      have h2 : (writtenA crc32 bd t p).zoneA
          = p ++ bd.zoneA.drop p.length := rfl
      simp [read_mdax, hns, h1, h2, ht, List.take_left]
  | B =>
    refine ⟨writtenB crc32 bd t p, ?_, ?_⟩
    · simp [write_mdax, writtenB, hos, hno]
    · have hns : newerSlot (writtenB crc32 bd t p) = .B := by
        simp [newerSlot, writtenB, ha]
      have h1 : (writtenB crc32 bd t p).mdab = ⟨t, p.length, crc32 p⟩ := rfl
      have h2 : (writtenB crc32 bd t p).zoneB
          = p ++ bd.zoneB.drop p.length := rfl
      simp [read_mdax, hns, h1, h2, ht, List.take_left]

/-- C2 witness: the amended round-trip at a concrete device and payload. -/
theorem mdax_roundtrip_witness :
    ([7].length ≤ 1 * SECTOR_SIZE) ∧
    (Timespec.cmp Timespec.zero ⟨1, 0⟩ = .lt) ∧
    ((⟨1, 0⟩ : Timespec) ≠ Timespec.zero) ∧
    ∃ bd', write_mdax (fun l => l.length) ⟨1, 1, 1, 1, 1, 1⟩
        ⟨⟨Timespec.zero, 0, 0⟩, ⟨Timespec.zero, 0, 0⟩, [], []⟩ ⟨1, 0⟩ [7]
        = .ok bd' ∧
      read_mdax (fun l => l.length) bd' = .ok [7] :=
  ⟨by decide, by decide, by decide,
   mdax_roundtrip (fun l => l.length) ⟨1, 1, 1, 1, 1, 1⟩
     ⟨⟨Timespec.zero, 0, 0⟩, ⟨Timespec.zero, 0, 0⟩, [], []⟩ ⟨1, 0⟩ [7]
     (by decide) (by decide) (by decide) (by decide)⟩

/-- C2 counterexample: writing `[7]` at time `(3,0)` while slot B carries
time `(5,0)` stores the payload in the older slot A, and `read_mdax` then
returns slot B's payload `[9]`, not `[7]`. -/
theorem mdax_roundtrip_counterexample :
    (write_mdax (fun l => l.length) ⟨1, 1, 1, 1, 1, 1⟩
        ⟨⟨Timespec.zero, 0, 0⟩, ⟨⟨5, 0⟩, 1, 1⟩, [], [9]⟩ ⟨3, 0⟩ [7]).bind
      (read_mdax (fun l => l.length)) = .ok [9] ∧
    ([9] : List Nat) ≠ [7] := ⟨rfl, by decide⟩

/-- C3 (amended): `read_mdax` reads the newer slot (B on equal timestamps)
and fails when both slots are unused; `write_mdax` writes the complementary
(older) slot; successive writes alternate between the two slots PROVIDED
each write's timestamp is strictly greater than both current timestamps
(without that, two successive writes can hit the same slot — see the
counterexample). -/
theorem mda_slots_amended :
    (∀ (crc32 : List Nat → Nat) (bd : BlockDevMd),
      bd.mdaa.last_updated = Timespec.zero →
      bd.mdab.last_updated = Timespec.zero →
      read_mdax crc32 bd = .error .invalidInput) ∧
    (∀ bd : BlockDevMd, olderSlot bd = (newerSlot bd).opposite) ∧
    (∀ (crc32 : List Nat → Nat) (K : Consts) (bd : BlockDevMd)
       (t : Timespec) (p : List Nat) (bd' : BlockDevMd),
      Timespec.cmp bd.mdaa.last_updated t = .lt →
      Timespec.cmp bd.mdab.last_updated t = .lt →
      write_mdax crc32 K bd t p = .ok bd' →
      olderSlot bd' = (olderSlot bd).opposite) := by
  refine ⟨?_, ?_, ?_⟩
  · intro crc32 bd h1 h2
    simp [read_mdax, newerSlot, h1, h2, Timespec.cmp, Timespec.zero]
  · intro bd
    cases h : Timespec.cmp bd.mdaa.last_updated bd.mdab.last_updated <;>
      simp [olderSlot, newerSlot, Slot.opposite, h]
  · intro crc32 K bd t p bd' ha hb hw
    by_cases hc : p.length > K.mdaxZoneSectors * SECTOR_SIZE
    · simp [write_mdax, hc] at hw
    · cases hos : olderSlot bd with
      | A =>
        simp [write_mdax, hos, hc] at hw
        have hgt : Timespec.cmp t bd.mdab.last_updated = .gt := by
          rw [Timespec.cmp_gt_iff]
          rw [Timespec.cmp_lt_iff] at hb
          omega
        rw [← hw]
        simp [olderSlot, Slot.opposite, hgt]
      | B =>
        simp [write_mdax, hos, hc] at hw
        rw [← hw]
        simp [olderSlot, Slot.opposite, ha]

/-- C3 witness: both-unused read failure and monotone-time alternation at
concrete devices. -/
theorem mda_slots_amended_witness :
    read_mdax (fun l => l.length)
      ⟨⟨Timespec.zero, 0, 0⟩, ⟨Timespec.zero, 0, 0⟩, [], []⟩
      = .error .invalidInput ∧
    olderSlot ⟨⟨⟨1, 0⟩, 1, 1⟩, ⟨Timespec.zero, 0, 0⟩, [7], []⟩
      = (olderSlot ⟨⟨Timespec.zero, 0, 0⟩, ⟨Timespec.zero, 0, 0⟩, [], []⟩).opposite :=
  ⟨mda_slots_amended.1 (fun l => l.length)
     ⟨⟨Timespec.zero, 0, 0⟩, ⟨Timespec.zero, 0, 0⟩, [], []⟩ rfl rfl,
   mda_slots_amended.2.2 (fun l => l.length) ⟨1, 1, 1, 1, 1, 1⟩
     ⟨⟨Timespec.zero, 0, 0⟩, ⟨Timespec.zero, 0, 0⟩, [], []⟩ ⟨1, 0⟩ [7]
     ⟨⟨⟨1, 0⟩, 1, 1⟩, ⟨Timespec.zero, 0, 0⟩, [7], []⟩
     (by decide) (by decide) rfl⟩

/-- C3 counterexample: with slot A unused and slot B stamped `(5,0)`, a
write at time `(1,0)` goes to slot A, and the NEXT write would go to slot A
again (the older slot is still A afterwards), so successive writes do not
alternate unconditionally. -/
theorem mda_slots_counterexample :
    write_mdax (fun l => l.length) ⟨1, 1, 1, 1, 1, 1⟩
      ⟨⟨Timespec.zero, 0, 0⟩, ⟨⟨5, 0⟩, 1, 1⟩, [], [9]⟩ ⟨1, 0⟩ [7]
      = .ok ⟨⟨⟨1, 0⟩, 1, 1⟩, ⟨⟨5, 0⟩, 1, 1⟩, [7], [9]⟩ ∧
    olderSlot ⟨⟨Timespec.zero, 0, 0⟩, ⟨⟨5, 0⟩, 1, 1⟩, [], [9]⟩ = .A ∧
    olderSlot ⟨⟨⟨1, 0⟩, 1, 1⟩, ⟨⟨5, 0⟩, 1, 1⟩, [7], [9]⟩ = .A :=
  ⟨rfl, by decide, by decide⟩

/-! ## C4: region size and region bound -/

theorem regionDouble_pow (M c : Nat) :
    ∀ fuel rs, ∃ k, regionDouble M c fuel rs = rs * 2 ^ k ∧
      ∀ j < k, M < c / (rs * 2 ^ j) := by
  intro fuel
  induction fuel with
  | zero => intro rs; exact ⟨0, by simp [regionDouble], by omega⟩
  | succ n ih =>
    intro rs
    by_cases h : M < c / rs
    · obtain ⟨k, hk, hmin⟩ := ih (rs * 2)
      refine ⟨k + 1, ?_, ?_⟩
      · rw [show regionDouble M c (n + 1) rs = regionDouble M c n (rs * 2) from
          by simp [regionDouble, h]]
        rw [hk]; ring
      · intro j hj
        cases j with
        | zero => simpa using h
        | succ j' =>
          have hle := hmin j' (by omega)
          have heq : rs * 2 ^ (j' + 1) = rs * 2 * 2 ^ j' := by ring
          rw [heq]; exact hle
    · exact ⟨0, by simp [regionDouble, h], by omega⟩

theorem regionDouble_le (M c : Nat) :
    ∀ fuel rs, c < 2 ^ fuel * rs →
      c / (regionDouble M c fuel rs) ≤ M := by
  intro fuel
  induction fuel with
  | zero =>
    intro rs h
    have h0 : c / rs = 0 := Nat.div_eq_of_lt (by simpa using h)
    simp [regionDouble, h0]
  | succ n ih =>
    intro rs h
    by_cases hc : M < c / rs
    · rw [show regionDouble M c (n + 1) rs = regionDouble M c n (rs * 2) from
        by simp [regionDouble, hc]]
      refine ih (rs * 2) ?_
      have heq : (2 : Nat) ^ (n + 1) * rs = 2 ^ n * (rs * 2) := by ring
      omega
    · rw [show regionDouble M c (n + 1) rs = rs from by simp [regionDouble, hc]]
      omega

theorem createRedundantZone_fields (K : Consts) (bds : List BlockDevSpace)
    (Z : ZoneResult) (hz : createRedundantZone K bds = some Z) :
    Z.region_sectors
      = regionDouble K.maxRegions Z.common (Z.common + 1)
          K.defaultRegionSectors ∧
    Z.data_sectors
      = ((Z.common - Z.mdata_sectors) / K.stripeSectors) * K.stripeSectors ∧
    Z.raid = RaidDev.create (List.replicate Z.n (.present Z.data_sectors))
        K.stripeSectors Z.region_sectors ∧
    2 ≤ Z.n := by
  simp only [createRedundantZone] at hz
  split at hz
  · exact absurd hz (by simp)
  · split at hz
    · exact absurd hz (by simp)
    · rw [Option.some.injEq] at hz
      subst hz
      refine ⟨rfl, rfl, rfl, ?_⟩
      exact Nat.not_lt.mp (by assumption)

/-- C4 (amended): for a zone produced by the builder, `region_sectors` is
`DEFAULT_REGION_SECTORS` doubled the least number of times needed to reach
`⌊common / region_sectors⌋ ≤ MAX_REGIONS`, hence a power of two ≥
`DEFAULT_REGION_SECTORS` whenever the default is a power of two, and the
bound holds for the FLOOR of `common / region_sectors` (the loop guard) —
not for `⌈length / region_sectors⌉` with `length` the RaidDev data-visible
length, which the counterexample shows can exceed `MAX_REGIONS`. -/
theorem region_bound_amended (K : Consts) (bds : List BlockDevSpace)
    (Z : ZoneResult) (hz : createRedundantZone K bds = some Z)
    (hd0 : 0 < K.defaultRegionSectors) :
    (∃ k, Z.region_sectors = K.defaultRegionSectors * 2 ^ k ∧
      ∀ j < k, K.maxRegions < Z.common / (K.defaultRegionSectors * 2 ^ j)) ∧
    K.defaultRegionSectors ≤ Z.region_sectors ∧
    Z.common / Z.region_sectors ≤ K.maxRegions ∧
    ((∃ a, K.defaultRegionSectors = 2 ^ a) →
      ∃ b, Z.region_sectors = 2 ^ b) := by
  obtain ⟨hreg, -, -, -⟩ := createRedundantZone_fields K bds Z hz
  obtain ⟨k, hk, hmin⟩ :=
    regionDouble_pow K.maxRegions Z.common (Z.common + 1) K.defaultRegionSectors
  have hrs : Z.region_sectors = K.defaultRegionSectors * 2 ^ k := by
    rw [hreg, hk]
  refine ⟨⟨k, hrs, hmin⟩, ?_, ?_, ?_⟩
  · rw [hrs]
    exact Nat.le_mul_of_pos_right _ (Nat.pos_pow_of_pos k (by omega))
  · rw [hreg]
    refine regionDouble_le K.maxRegions Z.common (Z.common + 1)
      K.defaultRegionSectors ?_
    calc Z.common < 2 ^ (Z.common + 1) := by
          have h1 := Nat.lt_two_pow Z.common
          have h2 : (2 : Nat) ^ Z.common ≤ 2 ^ (Z.common + 1) :=
            Nat.pow_le_pow_right (by omega) (by omega)
          omega
      _ ≤ 2 ^ (Z.common + 1) * K.defaultRegionSectors :=
          Nat.le_mul_of_pos_right _ hd0
  · rintro ⟨a, ha⟩
    exact ⟨a + k, by rw [hrs, ha, pow_add]⟩

/-- C4 witness: the amended region properties at a concrete builder run. -/
theorem region_bound_amended_witness :
    createRedundantZone ⟨1, 1, 1024, 10, 4, 1⟩
      [⟨10002, []⟩, ⟨10002, []⟩, ⟨10002, []⟩]
      = some ⟨10000, 1024, 10, 32, 9968, 3, .ok ⟨4, 1024, 19936, []⟩⟩ ∧
    0 < 1024 ∧
    ((∃ k, (1024 : Nat) = 1024 * 2 ^ k ∧
        ∀ j < k, 10 < 10000 / (1024 * 2 ^ j)) ∧
     (1024 : Nat) ≤ 1024 ∧
     10000 / 1024 ≤ 10 ∧
     ((∃ a, (1024 : Nat) = 2 ^ a) → ∃ b, (1024 : Nat) = 2 ^ b)) :=
  ⟨by decide, by decide,
   region_bound_amended ⟨1, 1, 1024, 10, 4, 1⟩
     [⟨10002, []⟩, ⟨10002, []⟩, ⟨10002, []⟩]
     ⟨10000, 1024, 10, 32, 9968, 3, .ok ⟨4, 1024, 19936, []⟩⟩
     (by decide) (by decide)⟩

/-- C4 counterexample: a builder run (three members, common 10000, default
region 1024, MAX_REGIONS 10, stripe 4) produces a RaidDev of data-visible
length 19936 = 9968 × (3 − 1) with region_sectors 1024, and
⌈19936 / 1024⌉ = 20 > 10 = MAX_REGIONS, refuting the claimed bound on the
RaidDev length (the loop only bounds ⌊common / region_sectors⌋). -/
theorem region_bound_counterexample :
    createRedundantZone ⟨1, 1, 1024, 10, 4, 1⟩
      [⟨10002, []⟩, ⟨10002, []⟩, ⟨10002, []⟩]
      = some ⟨10000, 1024, 10, 32, 9968, 3, .ok ⟨4, 1024, 19936, []⟩⟩ ∧
    ¬ ((19936 + 1024 - 1) / 1024 ≤ 10) := by decide

/-! ## C7: the RAID length law -/

theorem presentLengths_replicate (n d : Nat) :
    presentLengths (List.replicate n (.present d)) = List.replicate n d := by
  induction n with
  | zero => rfl
  | succ m ih =>
    simp only [List.replicate_succ, presentLengths, List.filterMap_cons]
    simp only [presentLengths] at ih
    rw [ih]

theorem create_replicate (n d stripe region : Nat) (hn : 2 ≤ n) :
    RaidDev.create (List.replicate n (.present d)) stripe region
      = .ok ⟨stripe, region, d * (n - FROYO_REDUNDANCY), []⟩ := by
  unfold RaidDev.create
  rw [presentLengths_replicate]
  have hcond : ¬ ((List.replicate n d).length + FROYO_REDUNDANCY
      < (List.replicate n (RaidMemberModel.present d)).length) := by
    simp [FROYO_REDUNDANCY]
  rw [if_neg hcond]
  have hh : (List.replicate n d).head? = some d := by
    cases n with
    | zero => omega
    | succ m => simp [List.replicate_succ]
  rw [hh]
  have hall : ((List.replicate n d).all fun l => decide (l = d)) = true := by
    rw [List.all_eq_true]
    intro l hl
    simp [List.eq_of_mem_replicate hl]
  simp [hall]

/-- C7: (a) a successfully created `RaidDev` has
`length = D × (N − FROYO_REDUNDANCY)` where `D` is the common data length of
its present members; (b) member sets whose present members have differing
data lengths are rejected with `InvalidInput`; (c) a `RaidDev` produced by
the zone builder has `stripe_sectors = STRIPE_SECTORS` and its length is a
multiple of `STRIPE_SECTORS` (the builder stripe-aligns `data_sectors`). -/
theorem raid_length_law :
    (∀ (devs : List RaidMemberModel) (stripe region : Nat) (rd : RaidDevModel),
      RaidDev.create devs stripe region = .ok rd →
      ∃ D, presentLengths devs ≠ [] ∧
        (∀ l ∈ presentLengths devs, l = D) ∧
        rd.length = D * (devs.length - FROYO_REDUNDANCY) ∧
        rd.stripe_sectors = stripe) ∧
    (∀ (devs : List RaidMemberModel) (stripe region l1 l2 : Nat),
      l1 ∈ presentLengths devs → l2 ∈ presentLengths devs → l1 ≠ l2 →
      RaidDev.create devs stripe region = .err .invalidInput) ∧
    (∀ (K : Consts) (bds : List BlockDevSpace) (Z : ZoneResult)
       (rd : RaidDevModel),
      createRedundantZone K bds = some Z → Z.raid = .ok rd →
      rd.stripe_sectors = K.stripeSectors ∧
      K.stripeSectors ∣ rd.length ∧
      rd.length = Z.data_sectors * (Z.n - FROYO_REDUNDANCY)) := by
  refine ⟨?_, ?_, ?_⟩
  · intro devs stripe region rd h
    unfold RaidDev.create at h
    split at h
    · cases h
    · split at h
      · cases h
      · rename_i D hhd
        split at h
        · cases h
        · rename_i hall
          rw [Outcome.ok.injEq] at h
          subst h
          refine ⟨D, ?_, ?_, rfl, rfl⟩
          · intro hnil
            rw [hnil] at hhd
            cases hhd
          · intro l hl
            have := List.all_eq_true.mp (not_not.mp hall) l hl
            exact of_decide_eq_true this
  · intro devs stripe region l1 l2 h1 h2 hne
    unfold RaidDev.create
    by_cases hmiss :
        (presentLengths devs).length + FROYO_REDUNDANCY < devs.length
    · rw [if_pos hmiss]
    · rw [if_neg hmiss]
      cases hp : presentLengths devs with
      | nil => rw [hp] at h1; cases h1
      | cons d tl =>
        have h1' : l1 ∈ d :: tl := hp ▸ h1
        have h2' : l2 ∈ d :: tl := hp ▸ h2
        have hnall : ¬ (((d :: tl).all fun l => decide (l = d)) = true) := by
          intro hall
          have e1 := of_decide_eq_true (List.all_eq_true.mp hall l1 h1')
          have e2 := of_decide_eq_true (List.all_eq_true.mp hall l2 h2')
          exact hne (e1.trans e2.symm)
        simp only [List.head?_cons]
        rw [if_pos (by simpa using hnall)]
  · intro K bds Z rd hz hraid
    obtain ⟨-, hdata, hr, hn⟩ := createRedundantZone_fields K bds Z hz
    rw [hr, create_replicate Z.n Z.data_sectors K.stripeSectors
      Z.region_sectors hn, Outcome.ok.injEq] at hraid
    subst hraid
    refine ⟨rfl, ?_, rfl⟩
    have hdvd : K.stripeSectors ∣ Z.data_sectors := by
      rw [hdata]
      exact dvd_mul_left K.stripeSectors _
    exact hdvd.mul_right _

/-- C7 witness: creation at a concrete member set with equal present
lengths. -/
theorem raid_length_law_witness :
    RaidDev.create [.present 6, .present 6, .absent] 4 8 = .ok ⟨4, 8, 12, []⟩ ∧
    (∃ D, presentLengths [.present 6, .present 6, .absent] ≠ [] ∧
      (∀ l ∈ presentLengths [.present 6, .present 6, .absent], l = D) ∧
      (12 : Nat) = D * (([RaidMemberModel.present 6, .present 6, .absent]).length
        - FROYO_REDUNDANCY) ∧
      (4 : Nat) = 4) :=
  ⟨rfl, raid_length_law.1 [.present 6, .present 6, .absent] 4 8
    ⟨4, 8, 12, []⟩ rfl⟩

/-! ## C8: defensive status parsing -/

theorem healthBad_err (h : List Char) :
    ∀ c ∈ h, ¬(c = 'A' ∨ c = 'a' ∨ c = 'D') →
      healthBad h = .err .invalidData := by
  induction h with
  | nil => intro c hc; simp at hc
  | cons d rest ih =>
    intro c hc hbad
    rcases List.mem_cons.mp hc with rfl | hc
    · have h1 : ¬ (c = 'A') := fun hx => hbad (Or.inl hx)
      have h2 : ¬ (c = 'a') := fun hx => hbad (Or.inr (Or.inl hx))
      have h3 : ¬ (c = 'D') := fun hx => hbad (Or.inr (Or.inr hx))
      simp [healthBad, h1, h2, h3]
    · by_cases hA : d = 'A'
      · rw [show healthBad (d :: rest) = healthBad rest from
          by simp [healthBad, hA]]
        exact ih c hc hbad
      · by_cases ha : d = 'a'
        · rw [show healthBad (d :: rest) = healthBad rest from
            by simp [healthBad, hA, ha]]
          exact ih c hc hbad
        · by_cases hD : d = 'D'
          · rw [show healthBad (d :: rest)
                = (healthBad rest).bind (fun n => .ok (n + 1)) from
              by simp [healthBad, hA, ha, hD]]
            rw [ih c hc hbad]
            rfl
          · simp [healthBad, hA, ha, hD]

theorem healthBad_ok (h : List Char) :
    (∀ c ∈ h, c = 'A' ∨ c = 'a' ∨ c = 'D') → ∃ n, healthBad h = .ok n := by
  induction h with
  | nil => intro _; exact ⟨0, rfl⟩
  | cons d rest ih =>
    intro hv
    obtain ⟨n, hn⟩ := ih (fun c hc => hv c (by simp [hc]))
    rcases hv d (by simp) with hA | ha | hD
    · exact ⟨n, by simp [healthBad, hA, hn]⟩
    · exact ⟨n, by simp [healthBad, ha, hn]⟩
    · refine ⟨n + 1, ?_⟩
      by_cases hA : d = 'A'
      · rw [hA] at hD; cases hD
      · by_cases hax : d = 'a'
        · rw [hax] at hD; cases hD
        · simp [healthBad, hA, hax, hD, hn, Outcome.bind]

/-- C8 (amended): the thin-pool parser errors (`InvalidData`, not
`InvalidInput`) unless exactly one row is returned; the RAID parser takes
the LAST row, panicking when there is none or when the split status line has
fewer than 3 (or 5) fields rather than returning an error; an unknown
health character yields an `InvalidData` error; but an unknown sync action
maps to `RaidAction::Unknown` WITHOUT any error. -/
theorem status_parsing_amended :
    (∀ rows : List (List Char), rows.length ≠ 1 →
      ThinPoolDev.status rows = .err .invalidData) ∧
    (RaidDev.status [] = .panicked) ∧
    (∀ (rows : List (List Char)) (line : List Char),
      rows.getLast? = some line → (splitSep ' ' line).length ≤ 2 →
      RaidDev.status rows = .panicked) ∧
    (∀ (rows : List (List Char)) (line hlth : List Char) (c : Char),
      rows.getLast? = some line →
      (splitSep ' ' line).get? 2 = some hlth →
      c ∈ hlth → ¬(c = 'A' ∨ c = 'a' ∨ c = 'D') →
      RaidDev.status rows = .err .invalidData) ∧
    (∀ (rows : List (List Char)) (line hlth act : List Char),
      rows.getLast? = some line →
      (splitSep ' ' line).get? 2 = some hlth →
      (∀ c ∈ hlth, c = 'A' ∨ c = 'a' ∨ c = 'D') →
      (splitSep ' ' line).get? 4 = some act →
      act ≠ "idle".toList → act ≠ "frozen".toList → act ≠ "resync".toList →
      act ≠ "recover".toList → act ≠ "check".toList → act ≠ "repair".toList →
      act ≠ "reshape".toList →
      ∃ st, RaidDev.status rows = .ok (st, .Unknown)) := by
  refine ⟨?_, rfl, ?_, ?_, ?_⟩
  · intro rows hr
    unfold ThinPoolDev.status
    rw [if_pos hr]
  · intro rows line hlast hlen
    have hnone : (splitSep ' ' line).get? 2 = none :=
      List.get?_eq_none.mpr hlen
    rw [List.get?_eq_getElem?] at hnone
    simp [RaidDev.status, hlast, hnone]
  · intro rows line hlth c hlast hget hc hbad
    have herr := healthBad_err hlth c hc hbad
    rw [List.get?_eq_getElem?] at hget
    simp [RaidDev.status, hlast, hget, herr, Outcome.bind]
  · intro rows line hlth act hlast hget hvalid hget4 h1 h2 h3 h4 h5 h6 h7
    obtain ⟨n, hn⟩ := healthBad_ok hlth hvalid
    rw [List.get?_eq_getElem?] at hget hget4
    refine ⟨if n = 0 then RaidStatus.Good
      else if 1 ≤ n ∧ n ≤ FROYO_REDUNDANCY then RaidStatus.Degraded n
      else RaidStatus.Failed, ?_⟩
    simp [RaidDev.status, hlast, hget, hn, Outcome.bind, hget4,
      h1, h2, h3, h4, h5, h6, h7]
    split_ifs <;> simp_all

/-- C8 witness: the thin-pool row-count check and the unknown health
character error at concrete status rows. -/
theorem status_parsing_amended_witness :
    (([] : List (List Char)).length ≠ 1) ∧
    ThinPoolDev.status [] = .err .invalidData ∧
    RaidDev.status ["0 100 AX 5 idle".toList] = .err .invalidData :=
  ⟨by decide,
   status_parsing_amended.1 [] (by decide),
   status_parsing_amended.2.2.2.1 ["0 100 AX 5 idle".toList]
     "0 100 AX 5 idle".toList "AX".toList 'X' (by decide) (by decide)
     (by decide) (by decide)⟩

/-- C8 counterexample: a status row with the unknown sync action
`"frobnicate"` parses successfully to `(Good, Unknown)`; no `InvalidInput`
error is produced, refuting the claim that any unknown action yields one. -/
theorem status_parsing_counterexample :
    RaidDev.status ["0 100 AA 5 frobnicate".toList]
      = .ok (.Good, .Unknown) ∧
    RaidDev.status ["0 100 AA 5 frobnicate".toList]
      ≠ .err .invalidInput ∧
    RaidDev.status ["0 100 AA 5 frobnicate".toList]
      ≠ .err .invalidData := by decide

/-! ## C9: `ThinDev::extend` error behaviour -/

/-- C9: `extend` adds `sectors` to the stored `size` field before issuing
the kernel calls, for EVERY combination of kernel-call results — in
particular the increased size is retained when a call returns an error —
and an early `table_load` failure still propagates as the call's result. -/
theorem thindev_extend_size (td : ThinDevModel) (sectors : Nat)
    (r1 r2 r3 : Except ErrKind Unit) :
    ((ThinDev.extend td sectors r1 r2 r3).1.size = td.size + sectors) ∧
    (∀ e, r1 = .error e → (ThinDev.extend td sectors r1 r2 r3).2 = .error e) :=
  ⟨rfl, fun e h => by simp [ThinDev.extend, h]⟩

/-- C9 witness: a failing `table_load` still leaves the size increased. -/
theorem thindev_extend_size_witness :
    ((ThinDev.extend ⟨5⟩ 3 (.error .invalidData) (.ok ()) (.ok ())).1.size
      = 5 + 3) ∧
    ((ThinDev.extend ⟨5⟩ 3 (.error .invalidData) (.ok ()) (.ok ())).2
      = .error .invalidData) :=
  ⟨(thindev_extend_size ⟨5⟩ 3 (.error .invalidData) (.ok ()) (.ok ())).1,
   (thindev_extend_size ⟨5⟩ 3 (.error .invalidData) (.ok ()) (.ok ())).2
     .invalidData rfl⟩

/-! ## C10: `BlockDev::new` error versus panic -/

/-- C10: `BlockDev::new` returns an error exactly for an IO failure
(unopenable path), wrong magic, or header CRC mismatch; and it panics
exactly when magic and CRC are valid but the member-id bytes `[32..64)` or
the pool-id bytes `[128..160)` are not valid UTF-8
(`from_utf8(..).unwrap()`). -/
theorem blockdev_new_spec (crc32 : List Nat → Nat) (fro_magic : List Nat)
    (ioOk : Bool) (buf : List Nat) (sectors : Nat) :
    ((∃ e, BlockDev.new crc32 fro_magic ioOk buf sectors = .err e) ↔
      (ioOk = false ∨ (buf.drop 4).take 16 ≠ fro_magic ∨
       crc32 ((buf.drop 4).take (HEADER_SIZE - 4)) ≠ leU32 (buf.take 4))) ∧
    (BlockDev.new crc32 fro_magic ioOk buf sectors = .panicked ↔
      (ioOk = true ∧ (buf.drop 4).take 16 = fro_magic ∧
       crc32 ((buf.drop 4).take (HEADER_SIZE - 4)) = leU32 (buf.take 4) ∧
       (validUtf8 ((buf.drop 32).take 32) = false ∨
        validUtf8 ((buf.drop 128).take 32) = false))) := by
  cases ioOk with
  | false => simp [BlockDev.new]
  | true =>
    by_cases hm : (buf.drop 4).take 16 = fro_magic
    · by_cases hc : crc32 ((buf.drop 4).take (HEADER_SIZE - 4))
          = leU32 (buf.take 4)
      · by_cases hid : validUtf8 ((buf.drop 32).take 32)
        · by_cases hfd : validUtf8 ((buf.drop 128).take 32)
          · simp [BlockDev.new, hm, hc, hid, hfd]
          · simp [BlockDev.new, hm, hc, hid, hfd]
        · simp [BlockDev.new, hm, hc, hid]
      · simp [BlockDev.new, hm, hc]
    · simp [BlockDev.new, hm]

/-- C10 witness: a header with valid magic and CRC whose member-id bytes
contain the invalid UTF-8 byte 0xFF makes `BlockDev::new` panic. -/
theorem blockdev_new_spec_witness :
    BlockDev.new (fun _ => 0) (List.replicate 16 70) true
      ([0, 0, 0, 0] ++ List.replicate 16 70 ++ List.replicate 12 0
        ++ [0xFF] ++ List.replicate 127 0 : List Nat)
      100 = .panicked := by
  apply (blockdev_new_spec (fun _ => 0) (List.replicate 16 70) true _ 100).2.mpr
  refine ⟨rfl, by decide, by decide, Or.inl (by decide)⟩
